import Mathlib

/-!
Verification development for the service composition core of AyanBot
(`src/include/ayan/core/service.h`).

Shallow embedding conventions:
- `std::any` payloads are modelled by the small sum type `AnyVal`; `any_cast`
  to a concrete type becomes a tag check returning `Option`.
- `std::map<std::string_view, ExecState>` is modelled by an association list
  sorted strictly ascending on the key (the map invariant `SMSorted`);
  `std::map` iteration order is the list order.
- `Shared<ServiceConcept>` pointers are modelled by `Option Sev`: a null
  pointer is `none`; dereferencing a null pointer is modelled as the error
  outcome of an `Except Unit` computation (process death / UB).
- Service trees are immutable values: a mutation of a child object owned by
  exactly one parent entry is modelled functionally by storing the updated
  child value back into that entry.
- Concrete hook implementations (`run`, `usuage`, `load`, `unload`) are
  modelled by `SevKind`: `plain r` is a `ServiceImpl` subtype whose `run`
  returns `r` for the event being served and whose other hooks are the
  defaults (no-ops); `sched` is `ServiceSecheduler`, whose `run` fans out
  to its child stack and whose other hooks are empty.
-/

namespace Ayan

/-- Model of a `std::any` slot: empty, or a value of one of the payload
types the host code stores. -/
inductive AnyVal : Type where
  | empty : AnyVal
  | ofInt : Int → AnyVal
  | ofStr : String → AnyVal
deriving DecidableEq, Repr

/-- `service::RunResult`: a signed return code (`ret`, default
`NoSignaficantRet = 0`) and an `extra` payload (default empty). -/
structure RunResult where
  ret : Int := 0
  extra : AnyVal := AnyVal.empty
deriving DecidableEq, Repr

/-- `RunResult::NoSignaficantRet = 0`. -/
def RunResult.NoSignaficantRet : Int := 0

/-- `RunResult::ill()`: `ret == NoSignaficantRet`. -/
def RunResult.ill (r : RunResult) : Bool := r.ret == RunResult.NoSignaficantRet

/-- `RunResult::success()`: `ret > NoSignaficantRet`. -/
def RunResult.success (r : RunResult) : Bool := r.ret > RunResult.NoSignaficantRet

/-- `RunResult::failed()`: `ret < NoSignaficantRet`. -/
def RunResult.failed (r : RunResult) : Bool := r.ret < RunResult.NoSignaficantRet

/-- `RunResult::nothing()`: the default-constructed (inert) result. -/
def RunResult.nothing : RunResult := {}

/-- `RunResult::as<int>()`: `std::any_cast` succeeds only when the stored
payload has exactly the requested type, else yields an empty optional. -/
def RunResult.asInt (r : RunResult) : Option Int :=
  match r.extra with
  | AnyVal.ofInt n => some n
  | _ => none

/-- `RunResult::as<std::string>()`. -/
def RunResult.asStr (r : RunResult) : Option String :=
  match r.extra with
  | AnyVal.ofStr s => some s
  | _ => none

/-- The concrete hook package of a service implementation, see module
docstring: `plain r` = a `ServiceImpl` subtype with default hooks except
that `run` returns `r` on the event under consideration; `sched` =
`ServiceSecheduler`. -/
inductive SevKind : Type where
  | plain : RunResult → SevKind
  | sched : SevKind
deriving DecidableEq, Repr

/-- A live service instance: its identity string (`util::type_name<Impl>()`),
its concrete hooks, and its own `ServiceManager mgr_` execution stack.
An entry `(key, result, sevptr)` of the stack models
`ExecState { RunResult result; Shared<ServiceConcept> sev; }` stored
under `key` in the `std::map`; `sevptr = none` is a null service pointer. -/
inductive Sev : Type where
  | mk : String → SevKind → List (String × RunResult × Option Sev) → Sev

/-- `ServiceManager::ExecState`: the cached result paired with the (possibly
null) owned service pointer. -/
abbrev ExecState : Type := RunResult × Option Sev

/-- `ServiceManager::ExecuteStack = std::map<std::string_view, ExecState>`,
as a key-sorted association list. -/
abbrev ExecuteStack : Type := List (String × ExecState)

/-- `ServiceConcept::identity()`. -/
def Sev.ident : Sev → String
  | .mk i _ _ => i

/-- The concrete hook package of this instance. -/
def Sev.kind : Sev → SevKind
  | .mk _ k _ => k

/-- This instance's own `mgr_` execution stack. -/
def Sev.stack : Sev → ExecuteStack
  | .mk _ _ st => st

/-- The keys of an execution stack in iteration order.  Since the list is the
sorted representation of `std::map`, this is exactly the order in which
`ServiceManager::foreach` applies its visitor. -/
def smKeys (st : ExecuteStack) : List String := st.map Prod.fst

/-- Lookup in the `std::map` without insertion (`stack_.find(k)`). -/
def smFind : ExecuteStack → String → Option ExecState
  | [], _ => none
  | (k', v) :: rest, k => if k = k' then some v else smFind rest k

/-- `stack_[k] = v`: insert-or-assign at the key's position in the sorted
map. -/
def smInsert (k : String) (v : ExecState) : ExecuteStack → ExecuteStack
  | [] => [(k, v)]
  | (k', v') :: rest =>
    if k < k' then (k, v) :: (k', v') :: rest
    else if k = k' then (k, v) :: rest
    else (k', v') :: smInsert k v rest

/-- The `std::map` well-formedness invariant: keys strictly ascending. -/
def SMSorted (st : ExecuteStack) : Prop := List.Sorted (· < ·) (smKeys st)

/-- `ServiceManager::add(sev)`:
`stack_[sev->identity()] = ExecState{.result = RunResult{}, .sev = sev}` —
upsert keyed by the service's identity, cached result reset to the
default (inert) result. -/
def smAdd (st : ExecuteStack) (sev : Sev) : ExecuteStack :=
  smInsert sev.ident (RunResult.nothing, some sev) st

/-- `ServiceManager::replace(key, newer)`: `stack_[key]`
default-constructs a missing entry (inert result, null service pointer);
the old cached result is moved out and returned, and `newer` is stored in
its place. -/
def smReplace (st : ExecuteStack) (key : String) (newer : RunResult) :
    RunResult × ExecuteStack :=
  match smFind st key with
  | some es => (es.1, smInsert key (newer, es.2) st)
  | none => (RunResult.nothing, smInsert key (newer, none) st)

/-- What `stack_[key].result` reads: the cached result currently stored
for `key`, the default-constructed inert result when the map has no
entry. -/
def cachedResult (st : ExecuteStack) (key : String) : RunResult :=
  match smFind st key with
  | some es => es.1
  | none => RunResult.nothing

/-- What `stack_[key].sev` reads: the service pointer currently stored for
`key`, null when the map has no entry. -/
def cachedSev (st : ExecuteStack) (key : String) : Option Sev :=
  match smFind st key with
  | some es => es.2
  | none => none

/-- `ServiceManager::invalid_if(cond)`: reset every entry whose `ExecState`
satisfies `cond` to the default (inert) result, counting the entries
touched. -/
def smInvalidIf (cond : ExecState → Bool) : ExecuteStack → Nat × ExecuteStack
  | [] => (0, [])
  | (k, es) :: rest =>
    let tail := smInvalidIf cond rest
    if cond es then (tail.1 + 1, (k, (RunResult.nothing, es.2)) :: tail.2)
    else (tail.1, (k, es) :: tail.2)

/-- The `RetCode` overload of `invalid_if`: the predicate examines only the
cached result's return code. -/
def smInvalidIfRet (cond : Int → Bool) (st : ExecuteStack) : Nat × ExecuteStack :=
  smInvalidIf (fun es => cond es.1.ret) st

/-- `ServiceManager::invalid()` (no argument): `invalid_if` with the
unconditionally-true predicate; the C++ wrapper discards the count. -/
def smInvalidAll (st : ExecuteStack) : ExecuteStack :=
  (smInvalidIf (fun _ => true) st).2

/-- `ServiceManager::remove_all()`. -/
def smRemoveAll (_st : ExecuteStack) : ExecuteStack := []

/-- `inner::SevSupportMap`: the process-wide registry mapping an identity
string to the constructor for that service type.  Since modelled service
values are immutable, a constructor is modelled by the fresh instance it
produces. -/
abbrev SevSupportMap : Type := List (String × Sev)

/-- Registry lookup (`unordered_map::find`). -/
def regFind : SevSupportMap → String → Option Sev
  | [], _ => none
  | (k', v) :: rest, k => if k = k' then some v else regFind rest k

/-- `ServiceManager::require(service_name)`:
`all_available_services().at(service_name)` performs an unchecked lookup —
on an unregistered name `std::map::at` throws `std::out_of_range` inside a
`noexcept` member, which terminates the process (modelled as `.error ()`).
Otherwise the freshly constructed service is stored under its own
`identity()` with a default-constructed cached result. -/
def smRequire (reg : SevSupportMap) (name : String) (st : ExecuteStack) :
    Except Unit ExecuteStack :=
  match regFind reg name with
  | none => .error ()
  | some sev => .ok (smInsert sev.ident (RunResult.nothing, some sev) st)

/- `ServiceImpl<Impl>::serve(bot, event)` /
`ServiceSecheduler::run(bot, event)`, mutually.

`serve` evaluates `impl->run(bot, event)` on the pre-call state of `mgr_`
(argument evaluation precedes the call to `replace`), then executes
`mgr_.replace(identity(), <run result>)` on `mgr_` as left by `run`, and
returns what `replace` returns — the previously cached result.

For `plain r`, `run` is the default hook (returns `r`, touches nothing).
For `sched`, `run` is `ServiceSecheduler::run`: `mgr_.foreach` assigns
`exec_state.result = exec_state.sev->serve(botptr, event)` for every entry
(`serveStack` below) and then returns `RunResult::nothing()`.  Calling
`serve` through a null `sev` pointer is the error outcome. -/
mutual

/-- See the comment above: `ServiceImpl::serve` / the scheduler's `run`. -/
def Sev.serve : Sev → Except Unit (RunResult × Sev)
  | .mk id k st =>
    match k with
    | .plain r =>
      let rep := smReplace st id r
      .ok (rep.1, .mk id (.plain r) rep.2)
    | .sched =>
      match serveStack st with
      | .error e => .error e
      | .ok st₁ =>
        let rep := smReplace st₁ id RunResult.nothing
        .ok (rep.1, .mk id .sched rep.2)

/-- The dispatcher's `mgr_.foreach` loop inside `ServiceSecheduler::run`:
each entry's cached result is overwritten with what the child's `serve`
returned (a null child pointer is dereferenced unchecked). -/
def serveStack : List (String × RunResult × Option Sev) →
    Except Unit (List (String × RunResult × Option Sev))
  | [] => .ok []
  | (k, _res, osev) :: rest =>
    match osev with
    | none => .error ()
    | some s =>
      match Sev.serve s with
      | .error e => .error e
      | .ok rs =>
        match serveStack rest with
        | .error e => .error e
        | .ok rest' => .ok ((k, rs.1, some rs.2) :: rest')

end

/-- Observable lifecycle hook invocations, for stating ordering properties
of `install` / `uninstall`. -/
inductive LogEv : Type where
  | usuageOf : String → LogEv
  | loadOf : String → LogEv
  | unloadOf : String → LogEv
deriving DecidableEq, Repr

/- `ServiceImpl<Impl>::install(bot)` as the trace of hook invocations it
performs: first `impl->usuage(&this->mgr_, &impl->mgr_)`, then
`state.sev->install(bot)` for every entry of `mgr_` in map (ascending
identity) order, then `impl->load(bot)`.  Installing through a null `sev`
pointer is the error outcome.  For the modelled kinds the `usuage` and
`load` bodies are empty, so the hooks contribute only their invocation
marks and no state change. -/
mutual

/-- See the comment above: the hook-invocation trace of `install`. -/
def Sev.installTrace : Sev → Except Unit (List LogEv)
  | .mk id _k st =>
    match installStack st with
    | .error e => .error e
    | .ok l => .ok (LogEv.usuageOf id :: (l ++ [LogEv.loadOf id]))

def installStack : List (String × RunResult × Option Sev) →
    Except Unit (List LogEv)
  | [] => .ok []
  | (_k, _res, osev) :: rest =>
    match osev with
    | none => .error ()
    | some s =>
      match Sev.installTrace s with
      | .error e => .error e
      | .ok l =>
        match installStack rest with
        | .error e => .error e
        | .ok l' => .ok (l ++ l')

end

/- `ServiceImpl<Impl>::uninstall(bot)` as the trace of hook invocations:
`state.sev->uninstall(bot)` for every entry of `mgr_` in map order, then
`impl->unload(bot)`. -/
mutual

/-- See the comment above: the hook-invocation trace of `uninstall`. -/
def Sev.uninstallTrace : Sev → Except Unit (List LogEv)
  | .mk id _k st =>
    match uninstallStack st with
    | .error e => .error e
    | .ok l => .ok (l ++ [LogEv.unloadOf id])

def uninstallStack : List (String × RunResult × Option Sev) →
    Except Unit (List LogEv)
  | [] => .ok []
  | (_k, _res, osev) :: rest =>
    match osev with
    | none => .error ()
    | some s =>
      match Sev.uninstallTrace s with
      | .error e => .error e
      | .ok l =>
        match uninstallStack rest with
        | .error e => .error e
        | .ok l' => .ok (l ++ l')

end

/-! ### Helper lemmas about the execution stack -/

theorem smInsert_cons_lt {k k' : String} (v v' : ExecState) (st : ExecuteStack)
    (hlt : k < k') : smInsert k v ((k', v') :: st) = (k, v) :: (k', v') :: st := by
  simp [smInsert, hlt]

theorem smInsert_cons_self {k : String} (v v' : ExecState) (st : ExecuteStack) :
    smInsert k v ((k, v') :: st) = (k, v) :: st := by
  simp [smInsert, lt_irrefl]

theorem smInsert_cons_gt {k k' : String} (v v' : ExecState) (st : ExecuteStack)
    (hgt : k' < k) : smInsert k v ((k', v') :: st) = (k', v') :: smInsert k v st := by
  have h1 : ¬ k < k' := asymm hgt
  have h2 : k ≠ k' := ne_of_gt hgt
  simp [smInsert, h1, h2]

theorem smFind_smInsert_self (k : String) (v : ExecState) (st : ExecuteStack) :
    smFind (smInsert k v st) k = some v := by
  induction st with
  | nil => simp [smInsert, smFind]
  | cons hd tl ih =>
    obtain ⟨k', v'⟩ := hd
    rcases lt_trichotomy k k' with hlt | heq | hgt
    · rw [smInsert_cons_lt v v' tl hlt]; simp [smFind]
    · subst heq; rw [smInsert_cons_self v v' tl]; simp [smFind]
    · rw [smInsert_cons_gt v v' tl hgt]
      have hne : k ≠ k' := ne_of_gt hgt
      simp [smFind, hne, ih]

theorem smInsert_mem_self (k : String) (v : ExecState) (st : ExecuteStack) :
    (k, v) ∈ smInsert k v st := by
  induction st with
  | nil => simp [smInsert]
  | cons hd tl ih =>
    obtain ⟨k', v'⟩ := hd
    rcases lt_trichotomy k k' with hlt | heq | hgt
    · rw [smInsert_cons_lt v v' tl hlt]; exact List.mem_cons_self _ _
    · subst heq; rw [smInsert_cons_self v v' tl]; exact List.mem_cons_self _ _
    · rw [smInsert_cons_gt v v' tl hgt]; exact List.mem_cons_of_mem _ ih

theorem smKeys_smInsert_mem (a k : String) (v : ExecState) (st : ExecuteStack) :
    a ∈ smKeys (smInsert k v st) ↔ a = k ∨ a ∈ smKeys st := by
  induction st with
  | nil => simp [smInsert, smKeys]
  | cons hd tl ih =>
    obtain ⟨k', v'⟩ := hd
    rcases lt_trichotomy k k' with hlt | heq | hgt
    · rw [smInsert_cons_lt v v' tl hlt]
      simp [smKeys]
    · subst heq
      rw [smInsert_cons_self v v' tl]
      simp [smKeys]
    · rw [smInsert_cons_gt v v' tl hgt]
      simp only [smKeys, List.map_cons, List.mem_cons] at ih ⊢
      rw [ih]
      tauto

theorem smFind_eq_none_iff (st : ExecuteStack) (k : String) :
    smFind st k = none ↔ k ∉ smKeys st := by
  induction st with
  | nil => simp [smFind, smKeys]
  | cons hd tl ih =>
    obtain ⟨k', v'⟩ := hd
    by_cases heq : k = k'
    · simp [smFind, smKeys, heq]
    · simp [smFind, smKeys, heq, ih]

theorem SMSorted_smInsert (k : String) (v : ExecState) (st : ExecuteStack)
    (h : SMSorted st) : SMSorted (smInsert k v st) := by
  induction st with
  | nil => exact List.sorted_singleton _
  | cons hd tl ih =>
    obtain ⟨k', v'⟩ := hd
    have h' : (∀ b ∈ smKeys tl, k' < b) ∧ SMSorted tl := List.pairwise_cons.1 h
    rcases lt_trichotomy k k' with hlt | heq | hgt
    · rw [smInsert_cons_lt v v' tl hlt]
      refine List.pairwise_cons.2 ⟨?_, h⟩
      intro b hb
      rcases List.mem_cons.1 hb with hb | hb
      · exact hb ▸ hlt
      · exact lt_trans hlt (h'.1 b hb)
    · subst heq
      rw [smInsert_cons_self v v' tl]
      exact List.pairwise_cons.2 ⟨h'.1, h'.2⟩
    · rw [smInsert_cons_gt v v' tl hgt]
      refine List.pairwise_cons.2 ⟨?_, ih h'.2⟩
      intro b hb
      rcases (smKeys_smInsert_mem b k v tl).1 hb with hb' | hb'
      · exact hb' ▸ hgt
      · exact h'.1 b hb'

theorem SMSorted_smAdd (st : ExecuteStack) (sev : Sev) (h : SMSorted st) :
    SMSorted (smAdd st sev) :=
  SMSorted_smInsert _ _ _ h

theorem serveStack_keys (l l' : List (String × RunResult × Option Sev))
    (h : serveStack l = .ok l') : l'.map Prod.fst = l.map Prod.fst := by
  induction l generalizing l' with
  | nil =>
    simp only [serveStack] at h
    cases h
    rfl
  | cons hd tl ih =>
    obtain ⟨k, res, osev⟩ := hd
    cases osev with
    | none => simp [serveStack] at h
    | some s =>
      simp only [serveStack] at h
      cases hs : Sev.serve s with
      | error e => rw [hs] at h; cases h
      | ok rs =>
        rw [hs] at h
        cases ht : serveStack tl with
        | error e => rw [ht] at h; cases h
        | ok tl' =>
          rw [ht] at h
          cases h
          simp [ih tl' ht]

theorem serveStack_error_of_none (l : List (String × RunResult × Option Sev))
    (k : String) (r : RunResult) (h : (k, r, none) ∈ l) :
    serveStack l = .error () := by
  induction l with
  | nil => cases h
  | cons hd tl ih =>
    obtain ⟨k', res', osev'⟩ := hd
    rcases List.mem_cons.1 h with heq | hmem
    · cases heq
      simp [serveStack]
    · cases osev' with
      | none => simp [serveStack]
      | some s =>
        simp only [serveStack]
        cases hs : Sev.serve s with
        | error e => cases e; rfl
        | ok rs => rw [ih hmem]

theorem smReplace_fst (st : ExecuteStack) (id : String) (nr : RunResult) :
    (smReplace st id nr).1 = cachedResult st id := by
  cases h : smFind st id <;> simp [smReplace, cachedResult, h]

theorem smFind_smReplace_self (st : ExecuteStack) (id : String) (nr : RunResult) :
    smFind (smReplace st id nr).2 id = some (nr, cachedSev st id) := by
  cases h : smFind st id <;> simp [smReplace, cachedSev, h, smFind_smInsert_self]

/-! ### Claim theorems -/

/-- C9: for every identity `id` and results `R1`, `R2`: `replace(id, R1)`
followed by `replace(id, R2)` returns `R1` from the second call and leaves
the stack's entry for `id` holding `R2` (with the entry's service pointer
untouched). -/
theorem replace_round_trip (st : ExecuteStack) (id : String) (R1 R2 : RunResult) :
    (smReplace (smReplace st id R1).2 id R2).1 = R1 ∧
    ∃ osev, smFind (smReplace (smReplace st id R1).2 id R2).2 id = some (R2, osev) := by
  cases h : smFind st id with
  | none =>
    refine ⟨?_, none, ?_⟩ <;>
      simp [smReplace, h, smFind_smInsert_self]
  | some es =>
    refine ⟨?_, es.2, ?_⟩ <;>
      simp [smReplace, h, smFind_smInsert_self]

/-- C10: the unconditional `invalid_if` (which `invalid()` /
`invalidateAll` wraps) resets every entry's cached result to the inert
result, and its count equals the number of entries touched, which for the
always-true predicate is every entry — including entries already inert. -/
theorem invalid_all_resets_and_counts (st : ExecuteStack) :
    smInvalidAll st = (smInvalidIf (fun _ => true) st).2 ∧
    (smInvalidIf (fun _ => true) st).1 = st.length ∧
    ∀ e ∈ (smInvalidIf (fun _ => true) st).2, e.2.1.ill = true := by
  refine ⟨rfl, ?_, ?_⟩
  · induction st with
    | nil => rfl
    | cons hd tl ih => simp [smInvalidIf, ih]
  · induction st with
    | nil => intro e he; cases he
    | cons hd tl ih =>
      intro e he
      simp only [smInvalidIf, if_pos] at he
      rcases List.mem_cons.1 he with heq | hmem
      · subst heq
        rfl
      · exact ih e hmem

/-- C4: `replace(identity, newResult)` on an identity with no existing
entry returns the inert result and synthesizes an entry holding
`newResult` with a null service reference; a traversal that then invokes
`serve` through every entry's service pointer (the scheduler's `run`
loop) dereferences that null pointer and fails. -/
theorem replace_unknown_creates_null_entry (st : ExecuteStack) (id : String)
    (r : RunResult) (h : smFind st id = none) :
    (smReplace st id r).1 = RunResult.nothing ∧
    smFind (smReplace st id r).2 id = some (r, none) ∧
    serveStack (smReplace st id r).2 = .error () := by
  refine ⟨?_, ?_, ?_⟩
  · simp [smReplace, h]
  · simp [smReplace, h, smFind_smInsert_self]
  · have hmem : (id, r, none) ∈ smInsert id (r, none) st := smInsert_mem_self _ _ _
    have : (smReplace st id r).2 = smInsert id (r, none) st := by simp [smReplace, h]
    rw [this]
    exact serveStack_error_of_none _ id r hmem

/-- C4 witness: concrete instance with an empty stack. -/
theorem replace_unknown_creates_null_entry_witness :
    smFind ([] : ExecuteStack) "A" = none ∧
    ((smReplace [] "A" ⟨1, .empty⟩).1 = RunResult.nothing ∧
      smFind (smReplace [] "A" ⟨1, .empty⟩).2 "A" = some (⟨1, .empty⟩, none) ∧
      serveStack (smReplace [] "A" ⟨1, .empty⟩).2 = .error ()) :=
  ⟨rfl, replace_unknown_creates_null_entry [] "A" ⟨1, .empty⟩ rfl⟩

/-- C3: `require` on an identity absent from the service registry performs
an unchecked `map::at` lookup inside a `noexcept` member: the thrown
`std::out_of_range` terminates the process (the error outcome of the
model) instead of producing an explicit LookupError value. -/
theorem require_unknown_identity_terminates (reg : SevSupportMap)
    (name : String) (st : ExecuteStack) (h : regFind reg name = none) :
    smRequire reg name st = .error () := by
  simp [smRequire, h]

/-- C3 witness: `require("NoSuchService")` against the empty registry. -/
theorem require_unknown_identity_terminates_witness :
    regFind [] "NoSuchService" = none ∧
    smRequire [] "NoSuchService" [] = .error () :=
  ⟨rfl, require_unknown_identity_terminates [] "NoSuchService" [] rfl⟩

/-- C1 counterexample: a service whose `run` computes a success result
(`ret = 1`), served once from an empty own stack.  `serve` returns the
previously cached (inert) result — `replace`'s return value — not the
newly computed one, and the new result is cached in the service's own
`mgr_` under its own identity, not in any parent stack. -/
theorem serve_returns_stale_result_cex :
    Sev.serve (.mk "A" (.plain ⟨1, .empty⟩) []) =
      .ok (⟨0, .empty⟩, .mk "A" (.plain ⟨1, .empty⟩)
        [("A", (⟨1, .empty⟩ : RunResult), none)]) ∧
    (⟨0, .empty⟩ : RunResult) ≠ (⟨1, .empty⟩ : RunResult) :=
  ⟨rfl, by decide⟩

/-- C1 (amended): for every composable service — either concrete kind, in
any state of its own stack — and every event, a successful `serve` first
invokes the concrete type's run hook (for the scheduler this is the
fan-out loop, turning the stack into the run-phase stack `stPre`; a plain
service's run leaves the stack untouched), then swaps the newly computed
Result `nr` into the entry keyed by this service's OWN identity inside
its OWN child stack via `replace` (preserving that entry's service
pointer), and returns to the caller the Result previously cached under
its own identity — inert when no self entry existed — which differs from
the newly computed one whenever the cache did. -/
theorem serve_caches_in_own_stack (id : String) (k : SevKind)
    (st : ExecuteStack) (r' : RunResult) (sev' : Sev)
    (h : Sev.serve (.mk id k st) = .ok (r', sev')) :
    ∃ nr stPre,
      (k = .sched → serveStack st = .ok stPre ∧ nr = RunResult.nothing) ∧
      (∀ r, k = .plain r → stPre = st ∧ nr = r) ∧
      sev'.ident = id ∧
      sev'.stack = (smReplace stPre id nr).2 ∧
      smFind sev'.stack id = some (nr, cachedSev stPre id) ∧
      r' = cachedResult stPre id ∧
      (cachedResult stPre id ≠ nr → r' ≠ nr) := by
  cases k with
  | plain r =>
    simp only [Sev.serve, Except.ok.injEq, Prod.mk.injEq] at h
    obtain ⟨hr, hsev⟩ := h
    subst hsev
    refine ⟨r, st, fun hk => SevKind.noConfusion hk,
      fun r₀ hk => ⟨rfl, SevKind.plain.inj hk⟩, rfl, rfl,
      smFind_smReplace_self _ _ _, ?_, ?_⟩
    · rw [← hr, smReplace_fst]
    · intro hne
      rw [← hr, smReplace_fst]
      exact hne
  | sched =>
    simp only [Sev.serve] at h
    cases hs : serveStack st with
    | error e => rw [hs] at h; cases h
    | ok st₁ =>
      rw [hs] at h
      simp only [Except.ok.injEq, Prod.mk.injEq] at h
      obtain ⟨hr, hsev⟩ := h
      subst hsev
      refine ⟨RunResult.nothing, st₁, fun _ => ⟨rfl, rfl⟩,
        fun r₀ hk => SevKind.noConfusion hk, rfl, rfl,
        smFind_smReplace_self _ _ _, ?_, ?_⟩
      · rw [← hr, smReplace_fst]
      · intro hne
        rw [← hr, smReplace_fst]
        exact hne

/-- C1 witness: a steady-state serve — the service already has a self
entry caching the previous run's result `5`; `serve` with a run outcome
of `1` returns the stale `5` and stores `1` in its own stack. -/
theorem serve_caches_in_own_stack_witness :
    Sev.serve (.mk "A" (.plain ⟨1, .empty⟩)
        [("A", ((⟨5, .empty⟩ : RunResult), (none : Option Sev)))]) =
      .ok (⟨5, .empty⟩, .mk "A" (.plain ⟨1, .empty⟩) [("A", (⟨1, .empty⟩, none))]) ∧
    (∃ nr stPre,
      (SevKind.plain ⟨1, .empty⟩ = .sched →
        serveStack [("A", ((⟨5, .empty⟩ : RunResult), (none : Option Sev)))] = .ok stPre ∧
          nr = RunResult.nothing) ∧
      (∀ r, SevKind.plain ⟨1, .empty⟩ = .plain r →
        stPre = [("A", ((⟨5, .empty⟩ : RunResult), (none : Option Sev)))] ∧ nr = r) ∧
      (Sev.mk "A" (.plain ⟨1, .empty⟩) [("A", (⟨1, .empty⟩, none))]).ident = "A" ∧
      (Sev.mk "A" (.plain ⟨1, .empty⟩) [("A", (⟨1, .empty⟩, none))]).stack =
        (smReplace stPre "A" nr).2 ∧
      smFind (Sev.mk "A" (.plain ⟨1, .empty⟩) [("A", (⟨1, .empty⟩, none))]).stack "A" =
        some (nr, cachedSev stPre "A") ∧
      (⟨5, .empty⟩ : RunResult) = cachedResult stPre "A" ∧
      (cachedResult stPre "A" ≠ nr → (⟨5, .empty⟩ : RunResult) ≠ nr)) :=
  by
  have hserve : Sev.serve (.mk "A" (.plain ⟨1, .empty⟩)
      [("A", ((⟨5, .empty⟩ : RunResult), (none : Option Sev)))]) =
      .ok (⟨5, .empty⟩, .mk "A" (.plain ⟨1, .empty⟩) [("A", (⟨1, .empty⟩, none))]) := by
    simp [Sev.serve, smReplace, smFind, smInsert]
  exact ⟨hserve, serve_caches_in_own_stack "A" (.plain ⟨1, .empty⟩)
    [("A", (⟨5, .empty⟩, none))] ⟨5, .empty⟩
    (.mk "A" (.plain ⟨1, .empty⟩) [("A", (⟨1, .empty⟩, none))]) hserve⟩

/-- C5: every `serve` call upserts (via `replace`) an entry keyed by the
service's own identity into its own child stack; when the service is not
its own child that entry carries a null service pointer, and for the
scheduler — whose `run` dereferences every entry's service pointer
unchecked — the next `serve` call dereferences that null pointer and
fails. -/
theorem serve_self_entry_null_then_crash (id : String) (st : ExecuteStack)
    (h : smFind st id = none) :
    (∀ k r' sev', Sev.serve (.mk id k st) = .ok (r', sev') →
        ∃ res, smFind sev'.stack id = some (res, none)) ∧
    (∀ r' d', Sev.serve (.mk id .sched st) = .ok (r', d') →
        Sev.serve d' = .error ()) := by
  constructor
  · intro k r' sev' hserve
    cases k with
    | plain r =>
      simp only [Sev.serve, smReplace, h] at hserve
      simp only [Except.ok.injEq, Prod.mk.injEq] at hserve
      obtain ⟨-, hsev⟩ := hserve
      subst hsev
      exact ⟨r, smFind_smInsert_self _ _ _⟩
    | sched =>
      simp only [Sev.serve] at hserve
      cases hs : serveStack st with
      | error e => rw [hs] at hserve; cases hserve
      | ok st₁ =>
        rw [hs] at hserve
        have h₁ : smFind st₁ id = none := by
          rw [smFind_eq_none_iff] at h ⊢
          have hk := serveStack_keys st st₁ hs
          simpa [smKeys, hk] using h
        simp only [smReplace, h₁, Except.ok.injEq, Prod.mk.injEq] at hserve
        obtain ⟨-, hsev⟩ := hserve
        subst hsev
        exact ⟨RunResult.nothing, smFind_smInsert_self _ _ _⟩
  · intro r' d' hserve
    simp only [Sev.serve] at hserve
    cases hs : serveStack st with
    | error e => rw [hs] at hserve; cases hserve
    | ok st₁ =>
      rw [hs] at hserve
      have h₁ : smFind st₁ id = none := by
        rw [smFind_eq_none_iff] at h ⊢
        have hk := serveStack_keys st st₁ hs
        simpa [smKeys, hk] using h
      simp only [smReplace, h₁, Except.ok.injEq, Prod.mk.injEq] at hserve
      obtain ⟨-, hsev⟩ := hserve
      subst hsev
      have hfail : serveStack (smInsert id (RunResult.nothing, none) st₁) = .error () :=
        serveStack_error_of_none _ id RunResult.nothing (smInsert_mem_self _ _ _)
      simp [Sev.serve, hfail]

/-- C5 witness: a scheduler with one healthy child crashes on its second
`serve`. -/
theorem serve_self_entry_null_then_crash_witness :
    smFind [("X", (RunResult.nothing, some (.mk "X" (.plain ⟨1, .empty⟩) [])))] "D" = none ∧
    ((∀ k r' sev',
        Sev.serve (.mk "D" k
          [("X", (RunResult.nothing, some (.mk "X" (.plain ⟨1, .empty⟩) [])))]) =
            .ok (r', sev') →
        ∃ res, smFind sev'.stack "D" = some (res, none)) ∧
      (∀ r' d',
        Sev.serve (.mk "D" .sched
          [("X", (RunResult.nothing, some (.mk "X" (.plain ⟨1, .empty⟩) [])))]) =
            .ok (r', d') →
        Sev.serve d' = .error ())) :=
  ⟨rfl, serve_self_entry_null_then_crash "D"
    [("X", (RunResult.nothing, some (.mk "X" (.plain ⟨1, .empty⟩) [])))] rfl⟩

/-- C2 counterexample: a scheduler `D` with children `X` (whose `run`
returns status `-1`) and `Y` (whose `run` returns status `1`).  After ONE
`serve` on `D`, the entries for `X` and `Y` in `D`'s stack both hold the
children's previously cached (inert) results — `serve` returns the stale
result — so `X`'s entry does not show a failure, contradicting the claim. -/
theorem dispatcher_entries_stale_cex :
    Sev.serve (.mk "D" .sched
      [("X", RunResult.nothing, some (.mk "X" (.plain ⟨-1, .empty⟩) [])),
       ("Y", RunResult.nothing, some (.mk "Y" (.plain ⟨1, .empty⟩) []))]) =
      .ok (RunResult.nothing, .mk "D" .sched
        [("D", RunResult.nothing, none),
         ("X", RunResult.nothing,
           some (.mk "X" (.plain ⟨-1, .empty⟩) [("X", ⟨-1, .empty⟩, none)])),
         ("Y", RunResult.nothing,
           some (.mk "Y" (.plain ⟨1, .empty⟩) [("Y", ⟨1, .empty⟩, none)]))]) ∧
    RunResult.nothing.failed = false ∧ RunResult.nothing.success = false := by
  refine ⟨?_, rfl, rfl⟩
  simp [Sev.serve, serveStack, smReplace, smFind, smInsert, RunResult.nothing]
  decide

/-- C2 (amended): one `serve` on the scheduler with children `X` (status
-1) and `Y` (status 1) fans out to both children even though `X` failed
(both children's own stacks get their new results), returns the canonical
inert Result, and leaves `X`'s and `Y`'s entries in the scheduler's stack
holding the stale inert results; the new failure/success Results are
cached one level DOWN, in `X`'s and `Y`'s own child stacks. -/
theorem dispatcher_fanout_stale_cache :
    Sev.serve (.mk "D" .sched
      [("X", RunResult.nothing, some (.mk "X" (.plain ⟨-1, .empty⟩) [])),
       ("Y", RunResult.nothing, some (.mk "Y" (.plain ⟨1, .empty⟩) []))]) =
      .ok (RunResult.nothing, .mk "D" .sched
        [("D", RunResult.nothing, none),
         ("X", RunResult.nothing,
           some (.mk "X" (.plain ⟨-1, .empty⟩) [("X", ⟨-1, .empty⟩, none)])),
         ("Y", RunResult.nothing,
           some (.mk "Y" (.plain ⟨1, .empty⟩) [("Y", ⟨1, .empty⟩, none)]))]) ∧
    smFind [("X", ((⟨-1, .empty⟩ : RunResult), (none : Option Sev)))] "X" =
      some (⟨-1, .empty⟩, none) ∧
    (⟨-1, .empty⟩ : RunResult).failed = true ∧
    smFind [("Y", ((⟨1, .empty⟩ : RunResult), (none : Option Sev)))] "Y" =
      some (⟨1, .empty⟩, none) ∧
    (⟨1, .empty⟩ : RunResult).success = true := by
  refine ⟨?_, rfl, by decide, rfl, by decide⟩
  simp [Sev.serve, serveStack, smReplace, smFind, smInsert, RunResult.nothing]
  decide

/-- C6: `install` invokes the `usuage` (declare-children) hook first, then
each child's `install` in ascending identity order, and the service's own
`load` hook strictly last; `uninstall` invokes every child's `uninstall`
first and the service's own `unload` hook strictly last. -/
theorem install_uninstall_ordering (idS : String) (k : SevKind)
    (rP rQ : RunResult) (P Q : Sev) (tP tQ uP uQ : List LogEv)
    (hord : P.ident < Q.ident)
    (hP : P.installTrace = .ok tP) (hQ : Q.installTrace = .ok tQ)
    (huP : P.uninstallTrace = .ok uP) (huQ : Q.uninstallTrace = .ok uQ) :
    (Sev.mk idS k [(P.ident, rP, some P), (Q.ident, rQ, some Q)]).installTrace =
      .ok (LogEv.usuageOf idS :: (tP ++ tQ ++ [LogEv.loadOf idS])) ∧
    (Sev.mk idS k [(P.ident, rP, some P), (Q.ident, rQ, some Q)]).uninstallTrace =
      .ok (uP ++ uQ ++ [LogEv.unloadOf idS]) := by
  constructor
  · simp [Sev.installTrace, installStack, hP, hQ]
  · simp [Sev.uninstallTrace, uninstallStack, huP, huQ]

/-- C6 witness: two concrete leaf children under a plain parent. -/
theorem install_uninstall_ordering_witness :
    ((Sev.mk "P" (.plain ⟨1, .empty⟩) []).ident < (Sev.mk "Q" (.plain ⟨2, .empty⟩) []).ident ∧
      (Sev.mk "P" (.plain ⟨1, .empty⟩) []).installTrace =
        .ok [LogEv.usuageOf "P", LogEv.loadOf "P"] ∧
      (Sev.mk "Q" (.plain ⟨2, .empty⟩) []).installTrace =
        .ok [LogEv.usuageOf "Q", LogEv.loadOf "Q"] ∧
      (Sev.mk "P" (.plain ⟨1, .empty⟩) []).uninstallTrace = .ok [LogEv.unloadOf "P"] ∧
      (Sev.mk "Q" (.plain ⟨2, .empty⟩) []).uninstallTrace = .ok [LogEv.unloadOf "Q"]) ∧
    ((Sev.mk "S" (.plain ⟨0, .empty⟩)
        [((Sev.mk "P" (.plain ⟨1, .empty⟩) []).ident, RunResult.nothing,
            some (.mk "P" (.plain ⟨1, .empty⟩) [])),
          ((Sev.mk "Q" (.plain ⟨2, .empty⟩) []).ident, RunResult.nothing,
            some (.mk "Q" (.plain ⟨2, .empty⟩) []))]).installTrace =
      .ok (LogEv.usuageOf "S" ::
        ([LogEv.usuageOf "P", LogEv.loadOf "P"] ++ [LogEv.usuageOf "Q", LogEv.loadOf "Q"] ++
          [LogEv.loadOf "S"])) ∧
     (Sev.mk "S" (.plain ⟨0, .empty⟩)
        [((Sev.mk "P" (.plain ⟨1, .empty⟩) []).ident, RunResult.nothing,
            some (.mk "P" (.plain ⟨1, .empty⟩) [])),
          ((Sev.mk "Q" (.plain ⟨2, .empty⟩) []).ident, RunResult.nothing,
            some (.mk "Q" (.plain ⟨2, .empty⟩) []))]).uninstallTrace =
      .ok ([LogEv.unloadOf "P"] ++ [LogEv.unloadOf "Q"] ++ [LogEv.unloadOf "S"])) :=
  ⟨⟨String.lt_iff_toList_lt.mpr (by decide), rfl, rfl, rfl, rfl⟩,
    install_uninstall_ordering "S" (.plain ⟨0, .empty⟩) RunResult.nothing RunResult.nothing
      (.mk "P" (.plain ⟨1, .empty⟩) []) (.mk "Q" (.plain ⟨2, .empty⟩) [])
      [LogEv.usuageOf "P", LogEv.loadOf "P"] [LogEv.usuageOf "Q", LogEv.loadOf "Q"]
      [LogEv.unloadOf "P"] [LogEv.unloadOf "Q"]
      (String.lt_iff_toList_lt.mpr (by decide)) rfl rfl rfl rfl⟩

theorem smKeys_foldl_mem (l : List Sev) (st : ExecuteStack) (a : String) :
    a ∈ smKeys (l.foldl smAdd st) ↔ a ∈ smKeys st ∨ a ∈ l.map Sev.ident := by
  induction l generalizing st with
  | nil => simp
  | cons sv tl ih =>
    simp only [List.foldl_cons, List.map_cons, List.mem_cons]
    rw [ih, smAdd, smKeys_smInsert_mem]
    tauto

theorem SMSorted_foldl (l : List Sev) (st : ExecuteStack) (h : SMSorted st) :
    SMSorted (l.foldl smAdd st) := by
  induction l generalizing st with
  | nil => exact h
  | cons sv tl ih => exact ih _ (SMSorted_smAdd _ _ h)

/-- C7: `foreach` visits a stack built by any sequence of `add` calls in
ascending lexicographic identity order, independent of insertion order:
a stack whose identities are `{"b","a","c"}` — added in any order — is
visited in the order `a, b, c`. -/
theorem foreach_visits_sorted_keys (l : List Sev) :
    SMSorted (l.foldl smAdd []) ∧
    (List.Perm (l.map Sev.ident) ["b", "a", "c"] →
      smKeys (l.foldl smAdd []) = ["a", "b", "c"]) := by
  have hsort : SMSorted (l.foldl smAdd []) :=
    SMSorted_foldl l [] List.Pairwise.nil
  refine ⟨hsort, ?_⟩
  intro hperm
  have hnd : (smKeys (l.foldl smAdd [])).Nodup := hsort.nodup
  have hmem : ∀ a, a ∈ smKeys (l.foldl smAdd []) ↔ a ∈ (["a", "b", "c"] : List String) := by
    intro a
    rw [smKeys_foldl_mem, hperm.mem_iff]
    simp [smKeys]
    tauto
  have hperm2 : List.Perm (smKeys (l.foldl smAdd [])) ["a", "b", "c"] :=
    (List.perm_ext_iff_of_nodup hnd (by decide)).2 hmem
  haveI : IsAntisymm String (· < ·) :=
    ⟨fun a b h1 h2 => absurd h2 (asymm h1)⟩
  exact List.eq_of_perm_of_sorted hperm2 hsort
    (by simp [List.sorted_cons]; decide)

/-- C7 witness: identities `b`, `a`, `c` added in that (non-sorted)
order. -/
theorem foreach_visits_sorted_keys_witness :
    List.Perm ([Sev.mk "b" .sched [], Sev.mk "a" .sched [], Sev.mk "c" .sched []].map Sev.ident)
        ["b", "a", "c"] ∧
    (SMSorted ([Sev.mk "b" .sched [], Sev.mk "a" .sched [], Sev.mk "c" .sched []].foldl smAdd []) ∧
      (List.Perm ([Sev.mk "b" .sched [], Sev.mk "a" .sched [], Sev.mk "c" .sched []].map Sev.ident)
          ["b", "a", "c"] →
        smKeys ([Sev.mk "b" .sched [], Sev.mk "a" .sched [], Sev.mk "c" .sched []].foldl smAdd []) =
          ["a", "b", "c"])) :=
  ⟨List.Perm.refl _,
    foreach_visits_sorted_keys [Sev.mk "b" .sched [], Sev.mk "a" .sched [], Sev.mk "c" .sched []]⟩

/-- C8: an execution stack holds at most one entry per identity (its keys
are strictly sorted, hence duplicate-free, and `add` preserves this);
after `add(A)` then `add(A')` for services sharing one identity, the
stack holds exactly one entry for that identity, referencing `A'`, with
its cached result reset to the inert result. -/
theorem add_upsert_single_entry (st : ExecuteStack) (A A' : Sev)
    (hs : SMSorted st) (hid : A.ident = A'.ident) :
    SMSorted (smAdd (smAdd st A) A') ∧
    (smKeys (smAdd (smAdd st A) A')).count A'.ident = 1 ∧
    smFind (smAdd (smAdd st A) A') A'.ident = some (RunResult.nothing, some A') := by
  have h2 : SMSorted (smAdd (smAdd st A) A') :=
    SMSorted_smAdd _ _ (SMSorted_smAdd _ _ hs)
  refine ⟨h2, ?_, smFind_smInsert_self _ _ _⟩
  have hmem : A'.ident ∈ smKeys (smAdd (smAdd st A) A') :=
    (smKeys_smInsert_mem _ _ _ _).2 (Or.inl rfl)
  exact List.count_eq_one_of_mem h2.nodup hmem

/-- C8 witness: two services of distinct concrete kinds sharing the
identity `"S"`, added to the empty stack. -/
theorem add_upsert_single_entry_witness :
    (SMSorted ([] : ExecuteStack) ∧
      (Sev.mk "S" (.plain ⟨1, .empty⟩) []).ident = (Sev.mk "S" .sched []).ident) ∧
    (SMSorted (smAdd (smAdd [] (.mk "S" (.plain ⟨1, .empty⟩) [])) (.mk "S" .sched [])) ∧
      (smKeys (smAdd (smAdd [] (.mk "S" (.plain ⟨1, .empty⟩) [])) (.mk "S" .sched []))).count
        (Sev.mk "S" .sched []).ident = 1 ∧
      smFind (smAdd (smAdd [] (.mk "S" (.plain ⟨1, .empty⟩) [])) (.mk "S" .sched []))
        (Sev.mk "S" .sched []).ident = some (RunResult.nothing, some (.mk "S" .sched []))) :=
  ⟨⟨List.Pairwise.nil, rfl⟩,
    add_upsert_single_entry [] (.mk "S" (.plain ⟨1, .empty⟩) []) (.mk "S" .sched [])
      List.Pairwise.nil rfl⟩

end Ayan
